import Mathlib

/-!
Verification of the 3d-scan-cleaner geometric cleaning pipeline
(source file: src/clean.py).

The program's float64 arithmetic is modelled over an arbitrary linear
ordered field F (instantiated at ℚ for executable checks and at ℝ for
the rotation theorems, where np.linalg.norm needs a square root).
np.linalg.norm is modelled by an explicit square-root parameter
sq : F → F, instantiated with Real.sqrt over ℝ.

Third-party geometry routines invoked by clean.py
(trimesh.intersections.slice_mesh_plane, trimesh.Trimesh.split,
trimesh.repair.fix_winding, pyransac3d.Plane.fit, pymeshfix.MeshFix)
are not part of this repository; where a claim depends on them they are
modelled from the spec (sections 4.2-4.6) or passed as explicit
function parameters (oracles), as documented at each definition.
-/

/-- A 3D point or vector with coordinates in F (models a numpy row of a
float64 (n,3) vertex array). -/
structure Vec3 (F : Type) where
  x : F
  y : F
  z : F
  deriving DecidableEq

/-- A plane equation (a, b, c, d) meaning a·x + b·y + c·z + d = 0, the
return shape of pyransac3d.Plane.fit. -/
structure Vec4 (F : Type) where
  a : F
  b : F
  c : F
  d : F
  deriving DecidableEq

/-- A 3x3 matrix, row-major entries (models a numpy (3,3) array). -/
structure Mat3 (F : Type) where
  m00 : F
  m01 : F
  m02 : F
  m10 : F
  m11 : F
  m12 : F
  m20 : F
  m21 : F
  m22 : F
  deriving DecidableEq

variable {F : Type} [LinearOrderedField F]

instance : Zero (Vec3 F) := ⟨⟨0, 0, 0⟩⟩

instance : Add (Vec3 F) := ⟨fun u v => ⟨u.x + v.x, u.y + v.y, u.z + v.z⟩⟩

instance : Sub (Vec3 F) := ⟨fun u v => ⟨u.x - v.x, u.y - v.y, u.z - v.z⟩⟩

instance : Neg (Vec3 F) := ⟨fun v => ⟨-v.x, -v.y, -v.z⟩⟩

instance : SMul F (Vec3 F) := ⟨fun s v => ⟨s * v.x, s * v.y, s * v.z⟩⟩

/-- Componentwise division of a vector by a scalar (numpy vec / s). -/
def vdiv (v : Vec3 F) (s : F) : Vec3 F := ⟨v.x / s, v.y / s, v.z / s⟩

/-- Dot product np.dot(u, v) for 3-vectors. -/
def dot3 (u v : Vec3 F) : F := u.x * v.x + u.y * v.y + u.z * v.z

/-- Cross product np.cross(u, v). -/
def cross3 (u v : Vec3 F) : Vec3 F :=
  ⟨u.y * v.z - u.z * v.y, u.z * v.x - u.x * v.z, u.x * v.y - u.y * v.x⟩

instance : Add (Mat3 F) :=
  ⟨fun A B => ⟨A.m00 + B.m00, A.m01 + B.m01, A.m02 + B.m02,
               A.m10 + B.m10, A.m11 + B.m11, A.m12 + B.m12,
               A.m20 + B.m20, A.m21 + B.m21, A.m22 + B.m22⟩⟩

instance : SMul F (Mat3 F) :=
  ⟨fun s A => ⟨s * A.m00, s * A.m01, s * A.m02,
               s * A.m10, s * A.m11, s * A.m12,
               s * A.m20, s * A.m21, s * A.m22⟩⟩

/-- Matrix product A.dot(B) for 3x3 numpy arrays. -/
instance : Mul (Mat3 F) :=
  ⟨fun A B =>
    ⟨A.m00 * B.m00 + A.m01 * B.m10 + A.m02 * B.m20,
     A.m00 * B.m01 + A.m01 * B.m11 + A.m02 * B.m21,
     A.m00 * B.m02 + A.m01 * B.m12 + A.m02 * B.m22,
     A.m10 * B.m00 + A.m11 * B.m10 + A.m12 * B.m20,
     A.m10 * B.m01 + A.m11 * B.m11 + A.m12 * B.m21,
     A.m10 * B.m02 + A.m11 * B.m12 + A.m12 * B.m22,
     A.m20 * B.m00 + A.m21 * B.m10 + A.m22 * B.m20,
     A.m20 * B.m01 + A.m21 * B.m11 + A.m22 * B.m21,
     A.m20 * B.m02 + A.m21 * B.m12 + A.m22 * B.m22⟩⟩

/-- The identity matrix np.eye(3). -/
def eye3 : Mat3 F := ⟨1, 0, 0, 0, 1, 0, 0, 0, 1⟩

/-- Matrix-vector product M · v (v as a column vector). -/
def matVecMul (A : Mat3 F) (v : Vec3 F) : Vec3 F :=
  ⟨A.m00 * v.x + A.m01 * v.y + A.m02 * v.z,
   A.m10 * v.x + A.m11 * v.y + A.m12 * v.z,
   A.m20 * v.x + A.m21 * v.y + A.m22 * v.z⟩

/-- Row-vector times matrix, v · M: this is what np.dot(vertices, rot_m)
computes for each vertex row at line 130 of clean.py. -/
def vecMatMul (v : Vec3 F) (A : Mat3 F) : Vec3 F :=
  ⟨v.x * A.m00 + v.y * A.m10 + v.z * A.m20,
   v.x * A.m01 + v.y * A.m11 + v.z * A.m21,
   v.x * A.m02 + v.y * A.m12 + v.z * A.m22⟩

/-- The skew-symmetric cross-product matrix kmat built at line 18 of
clean.py: np.array([[0, -v2, v1], [v2, 0, -v0], [-v1, v0, 0]]). -/
def skewMat (v : Vec3 F) : Mat3 F :=
  ⟨0, -v.z, v.y, v.z, 0, -v.x, -v.y, v.x, 0⟩

/-- Normalization vec / np.linalg.norm(vec) of lines 11-13 of clean.py,
with the square root passed explicitly (sq := Real.sqrt over ℝ). -/
def unitized (sq : F → F) (v : Vec3 F) : Vec3 F := vdiv v (sq (dot3 v v))

/-- rotation_matrix_from_vectors (clean.py lines 10-22): normalize both
inputs, take v = cross(a, b); if v has any nonzero component build
Rodrigues' matrix I + K + K·K·(1-c)/s², else return the identity. -/
def rotation_matrix_from_vectors (sq : F → F) (vec1 vec2 : Vec3 F) : Mat3 F :=
  let a := unitized sq vec1
  let b := unitized sq vec2
  let v := cross3 a b
  if v.x ≠ 0 ∨ v.y ≠ 0 ∨ v.z ≠ 0 then
    let c := dot3 a b
    let s := sq (dot3 v v)
    let kmat := skewMat v
    eye3 + kmat + ((1 - c) / s ^ 2) • (kmat * kmat)
  else
    eye3

/-- A triangular face: a triple of vertex indices. -/
abbrev Face := Nat × Nat × Nat

/-- The mesh data model (spec section 3): an ordered sequence of vertices
and a sequence of index-triple faces. -/
structure Mesh (F : Type) where
  vertices : List (Vec3 F)
  faces : List Face
  deriving DecidableEq

/-- The mesh invariant of spec section 3: every face index is within
bounds of the vertex sequence. -/
def Mesh.WF (m : Mesh F) : Prop :=
  ∀ f ∈ m.faces, f.1 < m.vertices.length ∧ f.2.1 < m.vertices.length ∧
    f.2.2 < m.vertices.length

/-- Number of vertices, mesh.vertices.shape[0] in clean.py. -/
def Mesh.vertexCount (m : Mesh F) : Nat := m.vertices.length

/-- Exceptions the Python code can actually raise on the modelled paths.
The code defines no error classes of its own (no DegenerateGeometryError,
EmptyMeshError or InsufficientDataError exists in clean.py):
  - emptyReduction: numpy ValueError from np.min/np.max over an empty
    vertex array (clean.py line 27);
  - nonFiniteDivision: the unguarded division by best_eq[2] at line 100
    (with a zero z-coefficient IEEE arithmetic yields non-finite
    coordinates, which cannot be represented in an ordered field, so it
    is modelled as this failure);
  - argmaxEmpty: numpy ValueError from np.argmax over an empty sequence
    of components (clean.py line 126). -/
inductive Err where
  | emptyReduction : Err
  | nonFiniteDivision : Err
  | argmaxEmpty : Err
  deriving DecidableEq

/-- True when an Except value carries a result, i.e. the Python call
returned normally instead of raising. -/
def okB {α : Type} (e : Except Err α) : Bool :=
  match e with
  | .ok _ => true
  | .error _ => false

/-- Componentwise minimum of two vectors. -/
def cmin (u v : Vec3 F) : Vec3 F := ⟨min u.x v.x, min u.y v.y, min u.z v.z⟩

/-- Componentwise maximum of two vectors. -/
def cmax (u v : Vec3 F) : Vec3 F := ⟨max u.x v.x, max u.y v.y, max u.z v.z⟩

/-- np.min(vertices, axis=0) over a nonempty vertex list v0 :: vs. -/
def vminList (v0 : Vec3 F) (vs : List (Vec3 F)) : Vec3 F := vs.foldl cmin v0

/-- np.max(vertices, axis=0) over a nonempty vertex list v0 :: vs. -/
def vmaxList (v0 : Vec3 F) (vs : List (Vec3 F)) : Vec3 F := vs.foldl cmax v0

/-- np.max(size): the largest of the three components. -/
def maxC (v : Vec3 F) : F := max v.x (max v.y v.z)

/-- The bounding-box extent (max - min) of a mesh, zero for an empty
vertex list (where numpy would raise before computing it). -/
def Mesh.sizeVec (m : Mesh F) : Vec3 F :=
  match m.vertices with
  | [] => 0
  | v0 :: vs => vmaxList v0 vs - vminList v0 vs

/-- normalize_mesh (clean.py lines 25-38): center the mesh on the
bounding-box midpoint, then scale by 1/np.max(size); returns the mutated
mesh with the applied translation and scale.  numpy raises a ValueError
on an empty vertex array (modelled as emptyReduction).  There is no
guard on np.max(size) = 0: the division is performed unconditionally
(numpy yields an inf scale with only a RuntimeWarning; Lean's total
division returns 0 there — the degenerate-geometry claims settled below
depend only on whether an exception is raised, not on that junk value). -/
def normalize_mesh (m : Mesh F) : Except Err (Mesh F × Vec3 F × F) :=
  match m.vertices with
  | [] => .error .emptyReduction
  | v0 :: vs =>
    let size := vmaxList v0 vs - vminList v0 vs
    let translation := vdiv size 2 + vminList v0 vs
    let scale := 1 / maxC size
    let newVerts := (m.vertices.map (fun v => v - translation)).map
      (fun v => (1 / maxC size) • v)
    .ok ({ m with vertices := newVerts }, translation, scale)

/-- Signed distance (up to the norm of n) of v from the plane through p
with normal n; slice_mesh_plane keeps the side where this is ≥ 0. -/
def sdist (n p v : Vec3 F) : F := dot3 n (v - p)

/-- Intersection of segment u-w with the plane, for u on the kept side
and w strictly outside: u + (du/(du-dw))·(w-u). -/
def interp (n p u w : Vec3 F) : Vec3 F :=
  u + (sdist n p u / (sdist n p u - sdist n p w)) • (w - u)

/-- Modelled from the spec: the Plane Slicer's clipping of one triangle
(spec section 4.3 — triangles entirely outside the kept half-space are
dropped, triangles straddling the plane are clipped and re-triangulated
at the intersection).  The implementation is third-party
(trimesh.intersections.slice_mesh_plane), not part of this repository. -/
def clipTriangle (n p a b c : Vec3 F) : List (Vec3 F × Vec3 F × Vec3 F) :=
  if 0 ≤ sdist n p a then
    if 0 ≤ sdist n p b then
      if 0 ≤ sdist n p c then [(a, b, c)]
      else [(a, b, interp n p b c), (a, interp n p b c, interp n p a c)]
    else
      if 0 ≤ sdist n p c then [(c, a, interp n p a b), (c, interp n p a b, interp n p c b)]
      else [(a, interp n p a b, interp n p a c)]
  else
    if 0 ≤ sdist n p b then
      if 0 ≤ sdist n p c then [(b, c, interp n p c a), (b, interp n p c a, interp n p b a)]
      else [(b, interp n p b c, interp n p b a)]
    else
      if 0 ≤ sdist n p c then [(c, interp n p c a, interp n p c b)]
      else []

/-- Append a point to a vertex list unless already present; return the
updated list and the point's index (vertex deduplication of the rebuilt
sliced mesh). -/
def pushPt : List (Vec3 F) → Vec3 F → List (Vec3 F) × Nat
  | [], q => ([q], 0)
  | v :: vs, q =>
    if v = q then (v :: vs, 0)
    else
      let r := pushPt vs q
      (v :: r.1, r.2 + 1)

/-- Add one triangle of points to a mesh under construction. -/
def rebuildStep (acc : Mesh F) (t : Vec3 F × Vec3 F × Vec3 F) : Mesh F :=
  let r1 := pushPt acc.vertices t.1
  let r2 := pushPt r1.1 t.2.1
  let r3 := pushPt r2.1 t.2.2
  ⟨r3.1, acc.faces ++ [(r1.2, r2.2, r3.2)]⟩

/-- Rebuild an indexed mesh from a list of point triangles. -/
def rebuildMesh (tris : List (Vec3 F × Vec3 F × Vec3 F)) : Mesh F :=
  tris.foldl rebuildStep ⟨[], []⟩

/-- The three corner points of a face (out-of-range indices give the
origin; the mesh invariant Mesh.WF rules that out). -/
def Mesh.facePoints (m : Mesh F) (f : Face) : Vec3 F × Vec3 F × Vec3 F :=
  (m.vertices.getD f.1 0, m.vertices.getD f.2.1 0, m.vertices.getD f.2.2 0)

/-- Modelled from the spec: trimesh.intersections.slice_mesh_plane
(spec section 4.3) — cut the mesh against the plane through p with
normal n, keeping the half-space the normal points into and
re-triangulating straddling triangles at the intersection.  (The source
calls it without cap=True, so no cap is added.) -/
def slice_mesh_plane (m : Mesh F) (n p : Vec3 F) : Mesh F :=
  rebuildMesh ((m.faces.map m.facePoints).flatMap
    (fun t => clipTriangle n p t.1 t.2.1 t.2.2))

/-- The six plane (point, normal) pairs of discard_extraneous
(clean.py lines 43-60), in source order. -/
def trimPlanes (bbx : F) : List (Vec3 F × Vec3 F) :=
  [(⟨bbx, 0, 0⟩, ⟨-1, 0, 0⟩), (⟨-bbx, 0, 0⟩, ⟨1, 0, 0⟩),
   (⟨0, bbx, 0⟩, ⟨0, -1, 0⟩), (⟨0, -bbx, 0⟩, ⟨0, 1, 0⟩),
   (⟨0, 0, bbx⟩, ⟨0, 0, -1⟩), (⟨0, 0, -bbx⟩, ⟨0, 0, 1⟩)]

/-- discard_extraneous (clean.py lines 41-62): successively slice the
mesh by each of the six axis-aligned planes of the cube [-bbx, bbx]³. -/
def discard_extraneous (mesh : Mesh F) (bbx : F) : Mesh F :=
  (trimPlanes bbx).foldl (fun m pn => slice_mesh_plane m pn.2 pn.1) mesh

/-- The three vertex indices of a face as a list. -/
def faceIdxList (f : Face) : List Nat := [f.1, f.2.1, f.2.2]

/-- Modelled from the spec: two faces are adjacent when they share a mesh
edge, i.e. at least two distinct vertex indices (spec section 4.5). -/
def adjacentFaces (f g : Face) : Bool :=
  decide (2 ≤ (((faceIdxList f).dedup).filter
    (fun i => (faceIdxList g).contains i)).length)

/-- Grow one connected component: repeatedly attach the remaining faces
adjacent to the component, with enough fuel to reach a fixed point. -/
def growComp (fuel : Nat) (comp rest : List Face) : List Face × List Face :=
  match fuel with
  | 0 => (comp, rest)
  | Nat.succ fuel2 =>
    let attach := rest.filter (fun g => comp.any (fun f => adjacentFaces f g))
    if attach.isEmpty then (comp, rest)
    else growComp fuel2 (comp ++ attach)
      (rest.filter (fun g => !(comp.any (fun f => adjacentFaces f g))))

/-- Partition a face list into connected components, in order of first
encounter. -/
def splitGo (fuel : Nat) (faces : List Face) : List (List Face) :=
  match fuel, faces with
  | 0, _ => []
  | Nat.succ _, [] => []
  | Nat.succ fuel2, f :: rest =>
    let r := growComp rest.length [f] rest
    r.1 :: splitGo fuel2 r.2

/-- Vertex indices in order of first appearance, without repetitions. -/
def uniqAux (seen : List Nat) : List Nat → List Nat
  | [] => []
  | i :: is =>
    if seen.contains i then uniqAux seen is
    else i :: uniqAux (i :: seen) is

/-- Position of an index in a list (first occurrence). -/
def idxOfNat (i : Nat) : List Nat → Nat
  | [] => 0
  | j :: js => if j = i then 0 else idxOfNat i js + 1

/-- The sub-mesh spanned by a subset of faces: only the vertices those
faces reference, with the faces reindexed accordingly. -/
def subMesh (m : Mesh F) (fs : List Face) : Mesh F :=
  let idxs := uniqAux [] (fs.flatMap faceIdxList)
  ⟨idxs.map (fun i => m.vertices.getD i 0),
   fs.map (fun f => (idxOfNat f.1 idxs, idxOfNat f.2.1 idxs, idxOfNat f.2.2 idxs))⟩

/-- Modelled from the spec: trimesh mesh.split(only_watertight=False)
(spec section 4.5) — partition the mesh into connected components of the
face-adjacency graph; a mesh with no faces yields no components. -/
def splitComponents (m : Mesh F) : List (Mesh F) :=
  (splitGo m.faces.length m.faces).map (subMesh m)

/-- The accumulator pass of np.argmax over vertex counts: keep the
current best, replacing it only on a strictly greater count, so the
first-encountered maximum wins. -/
def argmaxGo (best : Mesh F) : List (Mesh F) → Mesh F
  | [] => best
  | m :: ms =>
    argmaxGo (if best.vertexCount < m.vertexCount then m else best) ms

/-- Component selection of clean.py line 126:
new_mesh[np.argmax([m.vertices.shape[0] for m in new_mesh])].  np.argmax
raises a ValueError on an empty sequence, modelled as none. -/
def argmaxVtxCount : List (Mesh F) → Option (Mesh F)
  | [] => none
  | m :: ms => some (argmaxGo m ms)

/-- The configuration of remove_plane with the default values of its
Python signature (clean.py lines 65-76). -/
structure Config (F : Type) [LinearOrderedField F] where
  ransac_threshold : F := 1 / 100
  plane_offset : F := 5 / 1000
  trim_amount : F := 6 / 10
  fix_winding : Bool := true
  reorient : Bool := true
  normalize : Bool := true
  keep_largest : Bool := true
  close_holes : Bool := true

/-- The default configuration of the core function remove_plane. -/
def defaultConfig : Config F := {}

/-- The command-line arguments of the __main__ block with their argparse
defaults (clean.py lines 148-210): every flag is store_true with
default False. -/
structure CliArgs where
  normalize : Bool := false
  no_reorient : Bool := false
  no_close_holes : Bool := false
  no_fix_winding : Bool := false
  keep_all : Bool := false
  deriving DecidableEq

/-- The argparse defaults. -/
def cliDefaultArgs : CliArgs := {}

/-- How the __main__ block maps parsed arguments onto the remove_plane
configuration (clean.py lines 215-226). -/
def cliConfig (args : CliArgs) : Config F :=
  { normalize := args.normalize,
    fix_winding := !args.no_fix_winding,
    reorient := !args.no_reorient,
    keep_largest := !args.keep_all,
    close_holes := !args.no_close_holes }

/-- Stages of remove_plane up to the box trim (clean.py lines 85-121):
winding fix (the face-rewriting oracle fw models
trimesh.repair.fix_winding, which touches only the faces), in-place
normalization, plane fit (the oracle fit models pyransac3d.Plane.fit
applied to the normalized vertices), conversion of the fitted equation
to point-normal form with the unguarded division -best_eq[3]/best_eq[2],
the orientation probe slice, the normal flip when fewer than half the
points survive, the upright rotation matrix, the offset cut, and the
box trim.  Returns the trimmed mesh together with the rotation matrix
and the applied translation and scale. -/
def removePlaneCore (fw : List Face → List Face)
    (fit : List (Vec3 F) → F → Vec4 F) (sq : F → F)
    (mesh : Mesh F) (cfg : Config F) :
    Except Err (Mesh F × Mat3 F × Vec3 F × F) :=
  let mesh1 := if cfg.fix_winding then { mesh with faces := fw mesh.faces } else mesh
  let orig_num_pts := mesh1.vertices.length
  match normalize_mesh mesh1 with
  | .error e => .error e
  | .ok (mesh2, transl, scale) =>
    let best_eq := fit mesh2.vertices cfg.ransac_threshold
    if best_eq.c = 0 then .error .nonFiniteDivision
    else
      let nv0 : Vec3 F := ⟨best_eq.a, best_eq.b, best_eq.c⟩
      let nv := vdiv nv0 (dot3 nv0 nv0)
      let p : Vec3 F := ⟨0, 0, -(best_eq.d / best_eq.c)⟩
      let probe := slice_mesh_plane mesh2 nv p
      let nv2 := if (probe.vertexCount : F) < (orig_num_pts : F) * (1 / 2)
        then -nv else nv
      let rot_m := rotation_matrix_from_vectors sq ⟨0, 1, 0⟩ nv2
      let p_cur := p + cfg.plane_offset • nv2
      let sliced := slice_mesh_plane mesh2 nv2 p_cur
      let trimmed := discard_extraneous sliced (cfg.trim_amount / 2)
      .ok (trimmed, rot_m, transl, scale)

/-- The component-selection step of remove_plane (clean.py lines
124-126): when keep_largest is set, split the mesh into connected
components and take the one with the most vertices (np.argmax raises a
ValueError on an empty component sequence, modelled as argmaxEmpty);
otherwise pass the mesh through unchanged. -/
def selectLargest (keep : Bool) (trimmed : Mesh F) : Except Err (Mesh F) :=
  if keep then
    match argmaxVtxCount (splitComponents trimmed) with
    | none => .error .argmaxEmpty
    | some mm => .ok mm
  else .ok trimmed

/-- remove_plane (clean.py lines 65-145).  After the core stages: keep
the largest connected component (np.argmax raises on an empty component
list), optionally reorient by the row-vector product
np.dot(vertices, rot_m), undo the normalization only when the normalize
option is NOT set (lines 133-135: multiply by 1/scale, then add the
translation), and optionally run the hole-filling repair (the oracle
mfx models pymeshfix).  The returned value is the final mesh only. -/
def remove_plane (fw : List Face → List Face)
    (fit : List (Vec3 F) → F → Vec4 F) (mfx : Mesh F → Mesh F) (sq : F → F)
    (mesh : Mesh F) (cfg : Config F) : Except Err (Mesh F) :=
  match removePlaneCore fw fit sq mesh cfg with
  | .error e => .error e
  | .ok (trimmed, rot_m, transl, scale) =>
    match selectLargest cfg.keep_largest trimmed with
    | .error e => .error e
    | .ok selected =>
      let oriented := if cfg.reorient then
          { selected with vertices := selected.vertices.map (fun v => vecMatMul v rot_m) }
        else selected
      let finalM := if cfg.normalize then oriented
        else { oriented with vertices :=
          (oriented.vertices.map (fun v => (1 / scale) • v)).map (fun v => v + transl) }
      .ok (if cfg.close_holes then mfx finalM else finalM)

/-- The state of the CALLER's mesh object after remove_plane returns or
raises: trimesh.repair.fix_winding (line 86) rewrites its faces in
place when fix_winding is set, and normalize_mesh (line 90) overwrites
its vertex array in place with the normalized coordinates (every later
stage of remove_plane builds new mesh objects).  When normalize_mesh
raises (empty vertex array, before its first in-place write), only the
winding fix has happened. -/
def removePlaneInputAfter (fw : List Face → List Face)
    (mesh : Mesh F) (cfg : Config F) : Mesh F :=
  let mesh1 := if cfg.fix_winding then { mesh with faces := fw mesh.faces } else mesh
  match normalize_mesh mesh1 with
  | .error _ => mesh1
  | .ok (mesh2, _, _) => mesh2

/-- Translate every vertex of a mesh by a fixed offset. -/
def Mesh.translate (m : Mesh F) (d : Vec3 F) : Mesh F :=
  { m with vertices := m.vertices.map (fun v => v + d) }

/-- Identity face-rewriting oracle (a winding fix that finds nothing to
flip). -/
def fwId : List Face → List Face := fun fs => fs

/-- Identity repair oracle (a repair run that changes nothing). -/
def mfxId : Mesh ℚ → Mesh ℚ := fun m => m

/-- Placeholder square root for runs with reorient disabled, where the
rotation matrix is never used. -/
def sqZero : ℚ → ℚ := fun _ => 0

/-- A fitter oracle returning the constant plane z + 1 = 0 (normal
(0, 0, 1), below every normalized mesh, so the cut keeps everything). -/
def fitBelow : List (Vec3 ℚ) → ℚ → Vec4 ℚ := fun _ _ => ⟨0, 0, 1, 1⟩

/-- A fitter oracle returning a vertical plane x + 5 = 0, whose
z-coefficient is zero. -/
def fitVertical : List (Vec3 ℚ) → ℚ → Vec4 ℚ := fun _ _ => ⟨1, 0, 0, 5⟩

/-- A small triangle used as a concrete pipeline input. -/
def triMesh : Mesh ℚ := ⟨[⟨0, 0, 0⟩, ⟨1, 0, 0⟩, ⟨0, 0, 1⟩], [(0, 1, 2)]⟩

/-- A fitter oracle returning the plane z = 0, which contains every
vertex of flatTriMesh after normalization: the probe cut keeps all of
them, but the offset cut then removes everything. -/
def fitPlaneZ : List (Vec3 ℚ) → ℚ → Vec4 ℚ := fun _ _ => ⟨0, 0, 1, 0⟩

/-- A triangle lying in the plane z = 0. -/
def flatTriMesh : Mesh ℚ := ⟨[⟨0, 0, 0⟩, ⟨1, 0, 0⟩, ⟨0, 1, 0⟩], [(0, 1, 2)]⟩

/-- A degenerate mesh: all vertices identical (zero-size bounding box). -/
def degMesh : Mesh ℚ := ⟨[⟨1, 2, 3⟩, ⟨1, 2, 3⟩, ⟨1, 2, 3⟩], [(0, 1, 2)]⟩

/-- A mesh already centered with unit maximum extent: normalization is
the identity on it. -/
def fixedMesh : Mesh ℚ :=
  ⟨[⟨-1/2, -1/2, -1/2⟩, ⟨1/2, 1/2, 1/2⟩, ⟨1/2, -1/2, 1/2⟩], [(0, 1, 2)]⟩

/-- Configuration with rotation, repair and winding fix disabled (all
stages whose behavior is delegated to an oracle or never used). -/
def cfgPlain : Config ℚ :=
  { defaultConfig with reorient := false, close_holes := false, fix_winding := false }

/-- Same as cfgPlain but keeping all components. -/
def cfgNoKeep : Config ℚ := { cfgPlain with keep_largest := false }

/-- Decidable equality of Except values, for evaluating pipeline runs on
concrete inputs. -/
instance {ε α : Type} [DecidableEq ε] [DecidableEq α] : DecidableEq (Except ε α)
  | .error e, .error f =>
    match decEq e f with
    | isTrue h => isTrue (by rw [h])
    | isFalse h => isFalse (by intro hh; cases hh; exact h rfl)
  | .error _, .ok _ => isFalse (by intro hh; cases hh)
  | .ok _, .error _ => isFalse (by intro hh; cases hh)
  | .ok a, .ok b =>
    match decEq a b with
    | isTrue h => isTrue (by rw [h])
    | isFalse h => isFalse (by intro hh; cases hh; exact h rfl)

/-- A point produced by the slicing of a mesh with vertex set S by the
plane (n, p): it lies on the kept side of the plane and is a convex
combination of two points of S (an original kept vertex, with t = 0, or
an edge-plane intersection point). -/
def GoodPoint (n p : Vec3 F) (S : List (Vec3 F)) (q : Vec3 F) : Prop :=
  0 ≤ sdist n p q ∧
  ∃ (u w : Vec3 F) (t : F), u ∈ S ∧ w ∈ S ∧ 0 ≤ t ∧ t ≤ 1 ∧ q = u + t • (w - u)

/-! From here on: theorems.  First, componentwise rewriting lemmas for
the vector and matrix operations, then the claims in order. -/

@[simp] theorem vadd_def (u v : Vec3 F) :
    u + v = ⟨u.x + v.x, u.y + v.y, u.z + v.z⟩ := rfl

@[simp] theorem vsub_def (u v : Vec3 F) :
    u - v = ⟨u.x - v.x, u.y - v.y, u.z - v.z⟩ := rfl

@[simp] theorem vneg_def (v : Vec3 F) : -v = ⟨-v.x, -v.y, -v.z⟩ := rfl

@[simp] theorem vsmul_def (s : F) (v : Vec3 F) :
    s • v = ⟨s * v.x, s * v.y, s * v.z⟩ := rfl

@[simp] theorem vzero_def : (0 : Vec3 F) = ⟨0, 0, 0⟩ := rfl

omit [LinearOrderedField F] in
theorem vec3Ext {a b : Vec3 F} (hx : a.x = b.x) (hy : a.y = b.y)
    (hz : a.z = b.z) : a = b := by
  cases a; cases b; cases hx; cases hy; cases hz; rfl

@[simp] theorem madd_def (A B : Mat3 F) :
    A + B = ⟨A.m00 + B.m00, A.m01 + B.m01, A.m02 + B.m02,
             A.m10 + B.m10, A.m11 + B.m11, A.m12 + B.m12,
             A.m20 + B.m20, A.m21 + B.m21, A.m22 + B.m22⟩ := rfl

@[simp] theorem msmul_def (s : F) (A : Mat3 F) :
    s • A = ⟨s * A.m00, s * A.m01, s * A.m02,
             s * A.m10, s * A.m11, s * A.m12,
             s * A.m20, s * A.m21, s * A.m22⟩ := rfl

@[simp] theorem mmul_def (A B : Mat3 F) :
    A * B = ⟨A.m00 * B.m00 + A.m01 * B.m10 + A.m02 * B.m20,
             A.m00 * B.m01 + A.m01 * B.m11 + A.m02 * B.m21,
             A.m00 * B.m02 + A.m01 * B.m12 + A.m02 * B.m22,
             A.m10 * B.m00 + A.m11 * B.m10 + A.m12 * B.m20,
             A.m10 * B.m01 + A.m11 * B.m11 + A.m12 * B.m21,
             A.m10 * B.m02 + A.m11 * B.m12 + A.m12 * B.m22,
             A.m20 * B.m00 + A.m21 * B.m10 + A.m22 * B.m20,
             A.m20 * B.m01 + A.m21 * B.m11 + A.m22 * B.m21,
             A.m20 * B.m02 + A.m21 * B.m12 + A.m22 * B.m22⟩ := rfl

theorem dot3_self_nonneg (v : Vec3 F) : 0 ≤ dot3 v v := by
  simp only [dot3]
  nlinarith [mul_self_nonneg v.x, mul_self_nonneg v.y, mul_self_nonneg v.z]

theorem vec3_ne_zero_iff {v : Vec3 F} :
    (v.x ≠ 0 ∨ v.y ≠ 0 ∨ v.z ≠ 0) ↔ v ≠ 0 := by
  constructor
  · rintro h rfl
    simp at h
  · intro h
    by_contra hc
    push_neg at hc
    exact h (vec3Ext hc.1 hc.2.1 hc.2.2)

theorem dot3_self_pos {v : Vec3 F} (h : v ≠ 0) : 0 < dot3 v v := by
  rcases lt_or_eq_of_le (dot3_self_nonneg v) with hlt | heq
  · exact hlt
  · exfalso
    apply h
    simp only [dot3] at heq
    have hx : v.x = 0 := by nlinarith [mul_self_nonneg v.x, mul_self_nonneg v.y, mul_self_nonneg v.z]
    have hy : v.y = 0 := by nlinarith [mul_self_nonneg v.x, mul_self_nonneg v.y, mul_self_nonneg v.z]
    have hz : v.z = 0 := by nlinarith [mul_self_nonneg v.x, mul_self_nonneg v.y, mul_self_nonneg v.z]
    exact vec3Ext (by simp [hx]) (by simp [hy]) (by simp [hz])

theorem cross3_dot_left (a b : Vec3 F) : dot3 (cross3 a b) a = 0 := by
  simp only [dot3, cross3]; ring

theorem cross3_cross3_self (v w : Vec3 F) :
    cross3 v (cross3 v w) = dot3 v w • v - dot3 v v • w := by
  apply vec3Ext <;> simp [cross3, dot3] <;> ring

theorem cross3_ab_a (a b : Vec3 F) :
    cross3 (cross3 a b) a = dot3 a a • b - dot3 a b • a := by
  apply vec3Ext <;> simp [cross3, dot3] <;> ring

theorem matVecMul_add (A B : Mat3 F) (v : Vec3 F) :
    matVecMul (A + B) v = matVecMul A v + matVecMul B v := by
  apply vec3Ext <;> simp [matVecMul] <;> ring

theorem matVecMul_smul (s : F) (A : Mat3 F) (v : Vec3 F) :
    matVecMul (s • A) v = s • matVecMul A v := by
  apply vec3Ext <;> simp [matVecMul] <;> ring

theorem matVecMul_eye (v : Vec3 F) : matVecMul eye3 v = v := by
  apply vec3Ext <;> simp [matVecMul, eye3]

theorem matVecMul_mul (A B : Mat3 F) (v : Vec3 F) :
    matVecMul (A * B) v = matVecMul A (matVecMul B v) := by
  apply vec3Ext <;> simp [matVecMul] <;> ring

theorem skew_apply (v w : Vec3 F) :
    matVecMul (skewMat v) w = cross3 v w := by
  apply vec3Ext <;> simp [matVecMul, skewMat, cross3] <;> ring

theorem rodrigues_core (a b : Vec3 F) (d : F) (ha : dot3 a a = 1)
    (hd : d = dot3 (cross3 a b) (cross3 a b)) (hnz : d ≠ 0) :
    matVecMul (eye3 + skewMat (cross3 a b) +
      ((1 - dot3 a b) / d) • (skewMat (cross3 a b) * skewMat (cross3 a b))) a = b := by
  rw [matVecMul_add, matVecMul_add, matVecMul_eye, matVecMul_smul,
    matVecMul_mul, skew_apply, skew_apply, cross3_cross3_self, cross3_ab_a,
    cross3_dot_left, ha, ← hd]
  apply vec3Ext <;> simp <;> field_simp <;> ring

theorem unitized_unit (v : Vec3 ℝ) (h : v ≠ 0) :
    dot3 (unitized Real.sqrt v) (unitized Real.sqrt v) = 1 := by
  have hp := dot3_self_pos h
  have hs : Real.sqrt (dot3 v v) * Real.sqrt (dot3 v v) = dot3 v v :=
    Real.mul_self_sqrt (le_of_lt hp)
  simp only [unitized, vdiv, dot3] at hs ⊢
  rw [div_mul_div_comm, div_mul_div_comm, div_mul_div_comm, div_add_div_same,
    div_add_div_same, hs]
  exact div_self (ne_of_gt hp)

/-- C1: rotation_matrix_from_vectors is correct: for nonzero input
vectors, whenever the cross product of the normalized inputs is nonzero
the built Rodrigues matrix maps the normalized first input exactly onto
the normalized second input, and whenever that cross product is the
zero vector (parallel or anti-parallel inputs, including a = -b) the
function returns exactly the identity matrix.  (Exact field arithmetic
stands in for the float tolerance of the claim.) -/
theorem rotation_matrix_from_vectors_correct (vec1 vec2 : Vec3 ℝ)
    (h1 : vec1 ≠ 0) (h2 : vec2 ≠ 0) :
    (cross3 (unitized Real.sqrt vec1) (unitized Real.sqrt vec2) ≠ 0 →
      matVecMul (rotation_matrix_from_vectors Real.sqrt vec1 vec2)
        (unitized Real.sqrt vec1) = unitized Real.sqrt vec2) ∧
    (cross3 (unitized Real.sqrt vec1) (unitized Real.sqrt vec2) = 0 →
      rotation_matrix_from_vectors Real.sqrt vec1 vec2 = eye3) := by
  constructor
  · intro hv
    have hvv := dot3_self_pos hv
    have hsq : Real.sqrt (dot3 (cross3 (unitized Real.sqrt vec1) (unitized Real.sqrt vec2))
        (cross3 (unitized Real.sqrt vec1) (unitized Real.sqrt vec2))) ^ 2 =
        dot3 (cross3 (unitized Real.sqrt vec1) (unitized Real.sqrt vec2))
        (cross3 (unitized Real.sqrt vec1) (unitized Real.sqrt vec2)) :=
      Real.sq_sqrt (dot3_self_nonneg _)
    simp only [rotation_matrix_from_vectors]
    rw [if_pos (vec3_ne_zero_iff.mpr hv), hsq]
    exact rodrigues_core _ _ _ (unitized_unit vec1 h1) rfl (ne_of_gt hvv)
  · intro hv
    simp only [rotation_matrix_from_vectors]
    rw [if_neg]
    rw [not_or, not_or]
    refine ⟨?_, ?_, ?_⟩ <;> simp [hv]

/-- Witness for C1 at the concrete nonzero vectors (1,0,0) and (0,1,0). -/
theorem rotation_matrix_from_vectors_correct_witness :
    (⟨1, 0, 0⟩ : Vec3 ℝ) ≠ 0 ∧ (⟨0, 1, 0⟩ : Vec3 ℝ) ≠ 0 ∧
    ((cross3 (unitized Real.sqrt ⟨1, 0, 0⟩) (unitized Real.sqrt ⟨0, 1, 0⟩) ≠ 0 →
      matVecMul (rotation_matrix_from_vectors Real.sqrt ⟨1, 0, 0⟩ ⟨0, 1, 0⟩)
        (unitized Real.sqrt ⟨1, 0, 0⟩) = unitized Real.sqrt ⟨0, 1, 0⟩) ∧
    (cross3 (unitized Real.sqrt ⟨1, 0, 0⟩) (unitized Real.sqrt ⟨0, 1, 0⟩) = 0 →
      rotation_matrix_from_vectors Real.sqrt ⟨1, 0, 0⟩ ⟨0, 1, 0⟩ = eye3)) :=
  ⟨fun h => one_ne_zero (congrArg Vec3.x h),
   fun h => one_ne_zero (congrArg Vec3.y h),
   rotation_matrix_from_vectors_correct ⟨1, 0, 0⟩ ⟨0, 1, 0⟩
     (fun h => one_ne_zero (congrArg Vec3.x h))
     (fun h => one_ne_zero (congrArg Vec3.y h))⟩

omit [LinearOrderedField F] in
theorem meshExt {a b : Mesh F} (hv : a.vertices = b.vertices)
    (hf : a.faces = b.faces) : a = b := by
  cases a; cases b; cases hv; cases hf; rfl

/-- C2: normalizing a mesh with a nonzero bounding box and then undoing
the normalization with the returned translation and scale (multiply
each vertex by 1/scale, then add the translation, as remove_plane does
at lines 134-135) reproduces the original mesh exactly (exact field
arithmetic stands in for the float tolerance of the claim). -/
theorem normalize_mesh_round_trip (m m2 : Mesh F) (t : Vec3 F) (s : F)
    (hnorm : normalize_mesh m = .ok (m2, t, s))
    (hbb : maxC m.sizeVec ≠ 0) :
    { m2 with vertices := m2.vertices.map (fun v => (1 / s) • v + t) } = m := by
  cases hm : m.vertices with
  | nil => simp [normalize_mesh, hm] at hnorm
  | cons v0 vs =>
    have hbb2 : maxC (vmaxList v0 vs - vminList v0 vs) ≠ 0 := by
      simpa [Mesh.sizeVec, hm] using hbb
    simp only [normalize_mesh, hm] at hnorm
    rw [Except.ok.injEq, Prod.mk.injEq, Prod.mk.injEq] at hnorm
    obtain ⟨hmesh, ht, hs⟩ := hnorm
    subst hmesh ht hs
    apply meshExt
    · dsimp only
      rw [List.map_map, List.map_map]
      conv_rhs => rw [hm, ← List.map_id (v0 :: vs)]
      apply List.map_congr_left
      intro v hv
      simp only [vsub_def] at hbb2
      apply vec3Ext <;>
        simp only [Function.comp, vsmul_def, vsub_def, vadd_def, id, one_div_one_div] <;>
        rw [← mul_assoc, mul_one_div_cancel hbb2, one_mul, sub_add_cancel]
    · rfl

/-- Witness for C2 at a concrete triangle mesh. -/
theorem normalize_mesh_round_trip_witness :
    normalize_mesh triMesh =
      .ok (⟨[⟨-1/2, 0, -1/2⟩, ⟨1/2, 0, -1/2⟩, ⟨-1/2, 0, 1/2⟩], [(0, 1, 2)]⟩,
           ⟨1/2, 0, 1/2⟩, (1 : ℚ)) ∧
    maxC triMesh.sizeVec ≠ 0 ∧
    { (⟨[⟨-1/2, 0, -1/2⟩, ⟨1/2, 0, -1/2⟩, ⟨-1/2, 0, 1/2⟩], [(0, 1, 2)]⟩ : Mesh ℚ) with
        vertices := ([⟨-1/2, 0, -1/2⟩, ⟨1/2, 0, -1/2⟩, ⟨-1/2, 0, 1/2⟩] : List (Vec3 ℚ)).map
          (fun v => (1 / (1 : ℚ)) • v + ⟨1/2, 0, 1/2⟩) } = triMesh :=
  ⟨by decide!, by decide!,
   normalize_mesh_round_trip triMesh
     ⟨[⟨-1/2, 0, -1/2⟩, ⟨1/2, 0, -1/2⟩, ⟨-1/2, 0, 1/2⟩], [(0, 1, 2)]⟩
     ⟨1/2, 0, 1/2⟩ 1 (by decide!) (by decide!)⟩

/-- Counterexample to C3: on a mesh whose vertices are all identical
(zero-size bounding box), normalize_mesh returns normally — no
DegenerateGeometryError (or any exception) aborts the pipeline; the
division by np.max(size) = 0 is performed unguarded (numpy emits a
non-finite scale with only a RuntimeWarning). -/
theorem normalize_mesh_degenerate_no_error_cex :
    okB (normalize_mesh degMesh) = true := by decide!

/-- C3 amended: normalize_mesh has no degenerate-geometry guard: it
returns normally on every nonempty vertex list, including zero-size
bounding boxes (dividing by zero unguarded); on an empty vertex list it
fails with numpy's ValueError from the min/max reduction, not with a
DegenerateGeometryError (no such error class exists in the code). -/
theorem normalize_mesh_no_degenerate_guard (m : Mesh F) :
    (m.vertices ≠ [] → okB (normalize_mesh m) = true) ∧
    (m.vertices = [] → normalize_mesh m = .error .emptyReduction) := by
  constructor
  · intro h
    cases hm : m.vertices with
    | nil => exact absurd hm h
    | cons v0 vs => simp [normalize_mesh, hm, okB]
  · intro h
    simp [normalize_mesh, h]

/-- Witness for the amended C3 at a concrete nonempty mesh. -/
theorem normalize_mesh_no_degenerate_guard_witness :
    triMesh.vertices ≠ [] ∧ okB (normalize_mesh triMesh) = true :=
  ⟨by decide!, (normalize_mesh_no_degenerate_guard triMesh).1 (by decide!)⟩

theorem splitComponents_nil_faces (m : Mesh F) (h : m.faces = []) :
    splitComponents m = [] := by
  simp [splitComponents, h, splitGo]

/-- Counterexample to C4: a concrete run in which the mesh has zero
faces after slicing and trimming fails with numpy's ValueError from
np.argmax over an empty sequence — the code defines no EmptyMeshError
class, so no EmptyMeshError is raised. -/
theorem remove_plane_empty_faces_valueerror_cex :
    remove_plane fwId fitPlaneZ mfxId sqZero flatTriMesh cfgPlain =
      .error .argmaxEmpty := by decide!

/-- C4 amended: whenever the mesh has zero faces after the slicing and
trimming stages and keep_largest is enabled, the component-selection
stage fails — but with numpy's ValueError from np.argmax on the empty
component sequence (modelled as argmaxEmpty), not with an
EmptyMeshError; with keep_largest disabled no error is raised at all. -/
theorem remove_plane_empty_faces_fails (fw : List Face → List Face)
    (fit : List (Vec3 F) → F → Vec4 F) (mfx : Mesh F → Mesh F) (sq : F → F)
    (m : Mesh F) (cfg : Config F) (trm : Mesh F) (rot : Mat3 F)
    (t : Vec3 F) (s : F)
    (hcore : removePlaneCore fw fit sq m cfg = .ok (trm, rot, t, s))
    (hfaces : trm.faces = []) (hk : cfg.keep_largest = true) :
    remove_plane fw fit mfx sq m cfg = .error .argmaxEmpty := by
  simp [remove_plane, selectLargest, hcore, hk,
    splitComponents_nil_faces trm hfaces, argmaxVtxCount]

/-- Witness for the amended C4 at a concrete run. -/
theorem remove_plane_empty_faces_fails_witness :
    removePlaneCore fwId fitPlaneZ sqZero flatTriMesh cfgPlain =
      .ok (⟨[], []⟩, eye3, ⟨1/2, 1/2, 0⟩, 1) ∧
    (⟨[], []⟩ : Mesh ℚ).faces = [] ∧ cfgPlain.keep_largest = true ∧
    remove_plane fwId fitPlaneZ mfxId sqZero flatTriMesh cfgPlain =
      .error .argmaxEmpty :=
  ⟨by decide!, rfl, by decide!,
   remove_plane_empty_faces_fails fwId fitPlaneZ mfxId sqZero flatTriMesh
     cfgPlain ⟨[], []⟩ eye3 ⟨1/2, 1/2, 0⟩ 1 (by decide!) rfl (by decide!)⟩

theorem argmaxGo_spec (rest : List (Mesh F)) (best : Mesh F) :
    (∀ m2 ∈ rest, m2.vertexCount ≤ (argmaxGo best rest).vertexCount) ∧
    best.vertexCount ≤ (argmaxGo best rest).vertexCount ∧
    (argmaxGo best rest = best ∨
      ∃ pre post, rest = pre ++ (argmaxGo best rest) :: post ∧
        best.vertexCount < (argmaxGo best rest).vertexCount ∧
        ∀ m2 ∈ pre, m2.vertexCount < (argmaxGo best rest).vertexCount) := by
  induction rest generalizing best with
  | nil => simp [argmaxGo]
  | cons m ms ih =>
    by_cases hlt : best.vertexCount < m.vertexCount
    · rw [argmaxGo, if_pos hlt]
      obtain ⟨hall, hm, hcase⟩ := ih m
      set r := argmaxGo m ms with hr
      refine ⟨?_, le_trans (le_of_lt hlt) hm, Or.inr ?_⟩
      · intro m2 hm2
        rcases List.mem_cons.mp hm2 with rfl | h
        · exact hm
        · exact hall _ h
      · rcases hcase with heq | ⟨pre, post, hsplit, hbm, hpre⟩
        · refine ⟨[], ms, by simp [heq], by rw [heq]; exact hlt, ?_⟩
          intro m2 h
          cases h
        · refine ⟨m :: pre, post, by simp [hsplit], lt_trans hlt hbm, ?_⟩
          intro m2 hm2
          rcases List.mem_cons.mp hm2 with rfl | h
          · exact hbm
          · exact hpre _ h
    · rw [argmaxGo, if_neg hlt]
      obtain ⟨hall, hb, hcase⟩ := ih best
      set r := argmaxGo best ms with hr
      push_neg at hlt
      refine ⟨?_, hb, ?_⟩
      · intro m2 hm2
        rcases List.mem_cons.mp hm2 with rfl | h
        · exact le_trans hlt hb
        · exact hall _ h
      · rcases hcase with heq | ⟨pre, post, hsplit, hbm, hpre⟩
        · exact Or.inl heq
        · refine Or.inr ⟨m :: pre, post, by simp [hsplit], hbm, ?_⟩
          intro m2 hm2
          rcases List.mem_cons.mp hm2 with rfl | h
          · exact lt_of_le_of_lt hlt hbm
          · exact hpre _ h

/-- C6: the component selected by np.argmax over vertex counts has a
vertex count greater than or equal to that of every other component of
the same partition, and ties are broken in favor of the
first-encountered component: everything strictly before the selected
component in the partition has a strictly smaller vertex count. -/
theorem component_selection_max (l : List (Mesh F)) (sel : Mesh F)
    (h : argmaxVtxCount l = some sel) :
    (∀ m2 ∈ l, m2.vertexCount ≤ sel.vertexCount) ∧
    ∃ pre post, l = pre ++ sel :: post ∧
      ∀ m2 ∈ pre, m2.vertexCount < sel.vertexCount := by
  cases l with
  | nil => simp [argmaxVtxCount] at h
  | cons m ms =>
    simp only [argmaxVtxCount, Option.some.injEq] at h
    obtain ⟨hall, hm, hcase⟩ := argmaxGo_spec ms m
    rw [h] at hall hm hcase
    constructor
    · intro m2 hm2
      rcases List.mem_cons.mp hm2 with rfl | h2
      · exact hm
      · exact hall _ h2
    · rcases hcase with heq | ⟨pre, post, hsplit, hbm, hpre⟩
      · refine ⟨[], ms, by simp [heq], ?_⟩
        intro m2 h2
        cases h2
      · refine ⟨m :: pre, post, by simp [hsplit], ?_⟩
        intro m2 hm2
        rcases List.mem_cons.mp hm2 with rfl | h2
        · exact hbm
        · exact hpre _ h2

/-- Witness for C6 at a concrete two-component partition. -/
theorem component_selection_max_witness :
    argmaxVtxCount [(⟨[⟨0, 0, 0⟩], []⟩ : Mesh ℚ), ⟨[⟨0, 0, 0⟩, ⟨1, 1, 1⟩], []⟩] =
      some ⟨[⟨0, 0, 0⟩, ⟨1, 1, 1⟩], []⟩ ∧
    ((∀ m2 ∈ [(⟨[⟨0, 0, 0⟩], []⟩ : Mesh ℚ), ⟨[⟨0, 0, 0⟩, ⟨1, 1, 1⟩], []⟩],
        m2.vertexCount ≤ (⟨[⟨0, 0, 0⟩, ⟨1, 1, 1⟩], []⟩ : Mesh ℚ).vertexCount) ∧
      ∃ pre post,
        [(⟨[⟨0, 0, 0⟩], []⟩ : Mesh ℚ), ⟨[⟨0, 0, 0⟩, ⟨1, 1, 1⟩], []⟩] =
          pre ++ (⟨[⟨0, 0, 0⟩, ⟨1, 1, 1⟩], []⟩ : Mesh ℚ) :: post ∧
        ∀ m2 ∈ pre, m2.vertexCount < (⟨[⟨0, 0, 0⟩, ⟨1, 1, 1⟩], []⟩ : Mesh ℚ).vertexCount) :=
  ⟨by decide!,
   component_selection_max [⟨[⟨0, 0, 0⟩], []⟩, ⟨[⟨0, 0, 0⟩, ⟨1, 1, 1⟩], []⟩]
     ⟨[⟨0, 0, 0⟩, ⟨1, 1, 1⟩], []⟩ (by decide!)⟩

theorem normalize_mesh_ok_of_ne (m : Mesh F) (h : m.vertices ≠ []) :
    ∃ r, normalize_mesh m = .ok r := by
  cases hm : m.vertices with
  | nil => exact absurd hm h
  | cons v0 vs =>
    simp only [normalize_mesh, hm]
    exact ⟨_, rfl⟩

/-- C10: the conversion of the fitted plane equation to point-normal
form divides by the z-coefficient best_eq[2] with no guard (and scales
the normal by 1/(n·n)); whenever the fitter returns a plane with zero
z-coefficient, the pipeline fails with the non-finite division (the
nonempty-vertices hypothesis only ensures the run reaches that line). -/
theorem plane_point_division_guard (fw : List Face → List Face)
    (fit : List (Vec3 F) → F → Vec4 F) (mfx : Mesh F → Mesh F) (sq : F → F)
    (m : Mesh F) (cfg : Config F) (hm : m.vertices ≠ [])
    (hc : ∀ vs th, (fit vs th).c = 0) :
    remove_plane fw fit mfx sq m cfg = .error .nonFiniteDivision := by
  have hv1 : (if cfg.fix_winding then { m with faces := fw m.faces } else m).vertices ≠ [] := by
    cases hfw : cfg.fix_winding <;> simpa using hm
  obtain ⟨⟨m2, t, s⟩, hok⟩ := normalize_mesh_ok_of_ne _ hv1
  simp [remove_plane, removePlaneCore, hok, hc]

/-- Witness for C10 at a concrete mesh and a fitter oracle returning a
vertical plane. -/
theorem plane_point_division_guard_witness :
    triMesh.vertices ≠ [] ∧ (∀ vs th, (fitVertical vs th).c = 0) ∧
    remove_plane fwId fitVertical mfxId sqZero triMesh cfgPlain =
      .error .nonFiniteDivision :=
  ⟨by decide!, fun _ _ => rfl,
   plane_point_division_guard fwId fitVertical mfxId sqZero triMesh cfgPlain
     (by decide!) (fun _ _ => rfl)⟩

theorem sdist_affine (n p u w : Vec3 F) (t : F) :
    sdist n p (u + t • (w - u)) = (1 - t) * sdist n p u + t * sdist n p w := by
  simp only [sdist, dot3, vadd_def, vsub_def, vsmul_def]
  ring

theorem good_self {n p : Vec3 F} {S : List (Vec3 F)} {q : Vec3 F}
    (h : 0 ≤ sdist n p q) (hq : q ∈ S) : GoodPoint n p S q := by
  refine ⟨h, q, q, 0, hq, hq, le_refl 0, zero_le_one, ?_⟩
  apply vec3Ext <;> simp

theorem interp_sdist {n p u w : Vec3 F} (hu : 0 ≤ sdist n p u)
    (hw : sdist n p w < 0) : sdist n p (interp n p u w) = 0 := by
  have hd : 0 < sdist n p u - sdist n p w := by linarith
  rw [interp, sdist_affine]
  field_simp
  ring

theorem good_interp {n p u w : Vec3 F} {S : List (Vec3 F)}
    (hu : 0 ≤ sdist n p u) (hw : sdist n p w < 0) (huS : u ∈ S) (hwS : w ∈ S) :
    GoodPoint n p S (interp n p u w) := by
  have hd : 0 < sdist n p u - sdist n p w := by linarith
  refine ⟨le_of_eq (interp_sdist hu hw).symm, u, w,
    sdist n p u / (sdist n p u - sdist n p w), huS, hwS,
    div_nonneg hu (le_of_lt hd), ?_, rfl⟩
  rw [div_le_one hd]
  linarith

theorem clipTriangle_good (n p a b c : Vec3 F) (S : List (Vec3 F))
    (ha : a ∈ S) (hb : b ∈ S) (hc : c ∈ S) :
    ∀ tr ∈ clipTriangle n p a b c,
      GoodPoint n p S tr.1 ∧ GoodPoint n p S tr.2.1 ∧ GoodPoint n p S tr.2.2 := by
  intro tr htr
  unfold clipTriangle at htr
  split_ifs at htr with hda hdb hdc hdc2 hdb2 hdc3 hdc4
  · simp only [List.mem_singleton] at htr
    subst htr
    exact ⟨good_self hda ha, good_self hdb hb, good_self hdc hc⟩
  · simp only [List.mem_cons, List.mem_singleton, List.not_mem_nil, or_false] at htr
    rcases htr with rfl | rfl
    · exact ⟨good_self hda ha, good_self hdb hb,
        good_interp hdb (not_le.mp hdc) hb hc⟩
    · exact ⟨good_self hda ha, good_interp hdb (not_le.mp hdc) hb hc,
        good_interp hda (not_le.mp hdc) ha hc⟩
  · simp only [List.mem_cons, List.mem_singleton, List.not_mem_nil, or_false] at htr
    rcases htr with rfl | rfl
    · exact ⟨good_self hdc2 hc, good_self hda ha,
        good_interp hda (not_le.mp hdb) ha hb⟩
    · exact ⟨good_self hdc2 hc, good_interp hda (not_le.mp hdb) ha hb,
        good_interp hdc2 (not_le.mp hdb) hc hb⟩
  · simp only [List.mem_singleton] at htr
    subst htr
    exact ⟨good_self hda ha, good_interp hda (not_le.mp hdb) ha hb,
      good_interp hda (not_le.mp hdc2) ha hc⟩
  · simp only [List.mem_cons, List.mem_singleton, List.not_mem_nil, or_false] at htr
    rcases htr with rfl | rfl
    · exact ⟨good_self hdb2 hb, good_self hdc3 hc,
        good_interp hdc3 (not_le.mp hda) hc ha⟩
    · exact ⟨good_self hdb2 hb, good_interp hdc3 (not_le.mp hda) hc ha,
        good_interp hdb2 (not_le.mp hda) hb ha⟩
  · simp only [List.mem_singleton] at htr
    subst htr
    exact ⟨good_self hdb2 hb, good_interp hdb2 (not_le.mp hdc3) hb hc,
      good_interp hdb2 (not_le.mp hda) hb ha⟩
  · simp only [List.mem_singleton] at htr
    subst htr
    exact ⟨good_self hdc4 hc, good_interp hdc4 (not_le.mp hda) hc ha,
      good_interp hdc4 (not_le.mp hdb2) hc hb⟩
  · exact absurd htr (List.not_mem_nil tr)

theorem pushPt_mem {vs : List (Vec3 F)} {q w : Vec3 F}
    (h : w ∈ (pushPt vs q).1) : w ∈ vs ∨ w = q := by
  induction vs with
  | nil =>
    simp only [pushPt, List.mem_singleton] at h
    exact Or.inr h
  | cons v vs ih =>
    simp only [pushPt] at h
    by_cases hv : v = q
    · rw [if_pos hv] at h
      exact Or.inl h
    · rw [if_neg hv] at h
      rcases List.mem_cons.mp h with rfl | h2
      · exact Or.inl (List.mem_cons_self _ _)
      · rcases ih h2 with h3 | h3
        · exact Or.inl (List.mem_cons_of_mem _ h3)
        · exact Or.inr h3

theorem rebuild_mem (tris : List (Vec3 F × Vec3 F × Vec3 F)) (acc : Mesh F)
    (v : Vec3 F) (h : v ∈ (tris.foldl rebuildStep acc).vertices) :
    v ∈ acc.vertices ∨ ∃ tr ∈ tris, v = tr.1 ∨ v = tr.2.1 ∨ v = tr.2.2 := by
  induction tris generalizing acc with
  | nil => exact Or.inl h
  | cons t ts ih =>
    rw [List.foldl_cons] at h
    rcases ih (rebuildStep acc t) h with h2 | ⟨tr, htr, hcor⟩
    · dsimp only [rebuildStep] at h2
      rcases pushPt_mem h2 with h3 | rfl
      · rcases pushPt_mem h3 with h4 | rfl
        · rcases pushPt_mem h4 with h5 | rfl
          · exact Or.inl h5
          · exact Or.inr ⟨t, List.mem_cons_self _ _, Or.inl rfl⟩
        · exact Or.inr ⟨t, List.mem_cons_self _ _, Or.inr (Or.inl rfl)⟩
      · exact Or.inr ⟨t, List.mem_cons_self _ _, Or.inr (Or.inr rfl)⟩
    · exact Or.inr ⟨tr, List.mem_cons_of_mem _ htr, hcor⟩

theorem getD_mem {l : List (Vec3 F)} {i : Nat} (h : i < l.length) (d : Vec3 F) :
    l.getD i d ∈ l := by
  rw [List.getD_eq_getElem l d h]
  exact List.getElem_mem h

theorem slice_vertices_good (m : Mesh F) (n p : Vec3 F) (hWF : m.WF) :
    ∀ v ∈ (slice_mesh_plane m n p).vertices, GoodPoint n p m.vertices v := by
  intro v hv
  have hv2 : v ∈ (((m.faces.map m.facePoints).flatMap
      (fun t => clipTriangle n p t.1 t.2.1 t.2.2)).foldl rebuildStep
        (⟨[], []⟩ : Mesh F)).vertices := hv
  rcases rebuild_mem _ _ _ hv2 with h | ⟨tr, htr, hcor⟩
  · exact absurd h (List.not_mem_nil v)
  · rcases List.mem_flatMap.mp htr with ⟨t0, ht0, htr2⟩
    rcases List.mem_map.mp ht0 with ⟨f, hf, rfl⟩
    obtain ⟨h1, h2, h3⟩ := hWF f hf
    have hg := clipTriangle_good n p _ _ _ m.vertices
      (getD_mem h1 0) (getD_mem h2 0) (getD_mem h3 0) tr htr2
    rcases hcor with rfl | rfl | rfl
    · exact hg.1
    · exact hg.2.1
    · exact hg.2.2

theorem pushPt_spec (vs : List (Vec3 F)) (q : Vec3 F) :
    vs.length ≤ (pushPt vs q).1.length ∧ (pushPt vs q).2 < (pushPt vs q).1.length := by
  induction vs with
  | nil => simp [pushPt]
  | cons v vs ih =>
    simp only [pushPt]
    by_cases hv : v = q
    · rw [if_pos hv]
      simp
    · rw [if_neg hv]
      dsimp only
      obtain ⟨ih1, ih2⟩ := ih
      simp only [List.length_cons]
      exact ⟨Nat.succ_le_succ ih1, Nat.succ_lt_succ ih2⟩

theorem rebuild_WF (tris : List (Vec3 F × Vec3 F × Vec3 F)) (acc : Mesh F)
    (hacc : acc.WF) : (tris.foldl rebuildStep acc).WF := by
  induction tris generalizing acc with
  | nil => exact hacc
  | cons t ts ih =>
    rw [List.foldl_cons]
    apply ih
    intro f hf
    dsimp only [rebuildStep] at hf ⊢
    have l1 := pushPt_spec acc.vertices t.1
    have l2 := pushPt_spec (pushPt acc.vertices t.1).1 t.2.1
    have l3 := pushPt_spec (pushPt (pushPt acc.vertices t.1).1 t.2.1).1 t.2.2
    rcases List.mem_append.mp hf with h | h
    · obtain ⟨ha, hb, hc⟩ := hacc f h
      have hle := le_trans l1.1 (le_trans l2.1 l3.1)
      exact ⟨lt_of_lt_of_le ha hle, lt_of_lt_of_le hb hle, lt_of_lt_of_le hc hle⟩
    · simp only [List.mem_singleton] at h
      subst h
      exact ⟨lt_of_lt_of_le l1.2 (le_trans l2.1 l3.1),
        lt_of_lt_of_le l2.2 l3.1, l3.2⟩

theorem slice_WF (m : Mesh F) (n p : Vec3 F) : (slice_mesh_plane m n p).WF :=
  rebuild_WF _ _ (fun f hf => absurd hf (List.not_mem_nil f))

theorem good_preserve {n p a b : Vec3 F} {S : List (Vec3 F)} {q : Vec3 F}
    (hS : ∀ u ∈ S, 0 ≤ sdist a b u) (hq : GoodPoint n p S q) :
    0 ≤ sdist a b q := by
  obtain ⟨_, u, w, t, huS, hwS, ht0, ht1, rfl⟩ := hq
  rw [sdist_affine]
  have h1 := hS u huS
  have h2 := hS w hwS
  nlinarith

theorem slice_keeps_plane (m : Mesh F) (n p : Vec3 F) (hWF : m.WF) :
    ∀ v ∈ (slice_mesh_plane m n p).vertices, 0 ≤ sdist n p v :=
  fun v hv => (slice_vertices_good m n p hWF v hv).1

theorem slice_keeps_old (m : Mesh F) (n p a b : Vec3 F) (hWF : m.WF)
    (hold : ∀ v ∈ m.vertices, 0 ≤ sdist a b v) :
    ∀ v ∈ (slice_mesh_plane m n p).vertices, 0 ≤ sdist a b v :=
  fun v hv => good_preserve hold (slice_vertices_good m n p hWF v hv)

/-- C5: discard_extraneous applies exactly the six axis-aligned plane
cuts of the cube [-bbx, bbx]³ (the cut list has length six, one per
cube face), and every vertex of the resulting mesh lies within
[-bbx, bbx] on each of the three axes (exact arithmetic, so the
tolerance of the claim is zero). -/
theorem discard_extraneous_six_cuts (m : Mesh F) (bbx : F) (hWF : m.WF) :
    (trimPlanes bbx).length = 6 ∧
    ∀ v ∈ (discard_extraneous m bbx).vertices,
      -bbx ≤ v.x ∧ v.x ≤ bbx ∧ -bbx ≤ v.y ∧ v.y ≤ bbx ∧
        -bbx ≤ v.z ∧ v.z ≤ bbx := by
  refine ⟨rfl, ?_⟩
  intro v hv
  rw [discard_extraneous] at hv
  simp only [trimPlanes, List.foldl_cons, List.foldl_nil] at hv
  set m1 := slice_mesh_plane m ⟨-1, 0, 0⟩ (⟨bbx, 0, 0⟩ : Vec3 F) with hm1
  set m2 := slice_mesh_plane m1 (⟨1, 0, 0⟩ : Vec3 F) ⟨-bbx, 0, 0⟩ with hm2
  set m3 := slice_mesh_plane m2 (⟨0, -1, 0⟩ : Vec3 F) ⟨0, bbx, 0⟩ with hm3
  set m4 := slice_mesh_plane m3 (⟨0, 1, 0⟩ : Vec3 F) ⟨0, -bbx, 0⟩ with hm4
  set m5 := slice_mesh_plane m4 (⟨0, 0, -1⟩ : Vec3 F) ⟨0, 0, bbx⟩ with hm5
  have hw1 : m1.WF := slice_WF m ⟨-1, 0, 0⟩ ⟨bbx, 0, 0⟩
  have hw2 : m2.WF := slice_WF m1 ⟨1, 0, 0⟩ ⟨-bbx, 0, 0⟩
  have hw3 : m3.WF := slice_WF m2 ⟨0, -1, 0⟩ ⟨0, bbx, 0⟩
  have hw4 : m4.WF := slice_WF m3 ⟨0, 1, 0⟩ ⟨0, -bbx, 0⟩
  have hw5 : m5.WF := slice_WF m4 ⟨0, 0, -1⟩ ⟨0, 0, bbx⟩
  have c1 : ∀ u ∈ m1.vertices, 0 ≤ sdist ⟨-1, 0, 0⟩ ⟨bbx, 0, 0⟩ u :=
    slice_keeps_plane m ⟨-1, 0, 0⟩ ⟨bbx, 0, 0⟩ hWF
  have c1a := slice_keeps_old m1 ⟨1, 0, 0⟩ ⟨-bbx, 0, 0⟩ ⟨-1, 0, 0⟩ ⟨bbx, 0, 0⟩ hw1 c1
  have c1b := slice_keeps_old m2 ⟨0, -1, 0⟩ ⟨0, bbx, 0⟩ ⟨-1, 0, 0⟩ ⟨bbx, 0, 0⟩ hw2 c1a
  have c1c := slice_keeps_old m3 ⟨0, 1, 0⟩ ⟨0, -bbx, 0⟩ ⟨-1, 0, 0⟩ ⟨bbx, 0, 0⟩ hw3 c1b
  have c1d := slice_keeps_old m4 ⟨0, 0, -1⟩ ⟨0, 0, bbx⟩ ⟨-1, 0, 0⟩ ⟨bbx, 0, 0⟩ hw4 c1c
  have c1e := slice_keeps_old m5 ⟨0, 0, 1⟩ ⟨0, 0, -bbx⟩ ⟨-1, 0, 0⟩ ⟨bbx, 0, 0⟩ hw5 c1d
  have c2 : ∀ u ∈ m2.vertices, 0 ≤ sdist ⟨1, 0, 0⟩ ⟨-bbx, 0, 0⟩ u :=
    slice_keeps_plane m1 ⟨1, 0, 0⟩ ⟨-bbx, 0, 0⟩ hw1
  have c2a := slice_keeps_old m2 ⟨0, -1, 0⟩ ⟨0, bbx, 0⟩ ⟨1, 0, 0⟩ ⟨-bbx, 0, 0⟩ hw2 c2
  have c2b := slice_keeps_old m3 ⟨0, 1, 0⟩ ⟨0, -bbx, 0⟩ ⟨1, 0, 0⟩ ⟨-bbx, 0, 0⟩ hw3 c2a
  have c2c := slice_keeps_old m4 ⟨0, 0, -1⟩ ⟨0, 0, bbx⟩ ⟨1, 0, 0⟩ ⟨-bbx, 0, 0⟩ hw4 c2b
  have c2d := slice_keeps_old m5 ⟨0, 0, 1⟩ ⟨0, 0, -bbx⟩ ⟨1, 0, 0⟩ ⟨-bbx, 0, 0⟩ hw5 c2c
  have c3 : ∀ u ∈ m3.vertices, 0 ≤ sdist ⟨0, -1, 0⟩ ⟨0, bbx, 0⟩ u :=
    slice_keeps_plane m2 ⟨0, -1, 0⟩ ⟨0, bbx, 0⟩ hw2
  have c3a := slice_keeps_old m3 ⟨0, 1, 0⟩ ⟨0, -bbx, 0⟩ ⟨0, -1, 0⟩ ⟨0, bbx, 0⟩ hw3 c3
  have c3b := slice_keeps_old m4 ⟨0, 0, -1⟩ ⟨0, 0, bbx⟩ ⟨0, -1, 0⟩ ⟨0, bbx, 0⟩ hw4 c3a
  have c3c := slice_keeps_old m5 ⟨0, 0, 1⟩ ⟨0, 0, -bbx⟩ ⟨0, -1, 0⟩ ⟨0, bbx, 0⟩ hw5 c3b
  have c4 : ∀ u ∈ m4.vertices, 0 ≤ sdist ⟨0, 1, 0⟩ ⟨0, -bbx, 0⟩ u :=
    slice_keeps_plane m3 ⟨0, 1, 0⟩ ⟨0, -bbx, 0⟩ hw3
  have c4a := slice_keeps_old m4 ⟨0, 0, -1⟩ ⟨0, 0, bbx⟩ ⟨0, 1, 0⟩ ⟨0, -bbx, 0⟩ hw4 c4
  have c4b := slice_keeps_old m5 ⟨0, 0, 1⟩ ⟨0, 0, -bbx⟩ ⟨0, 1, 0⟩ ⟨0, -bbx, 0⟩ hw5 c4a
  have c5 : ∀ u ∈ m5.vertices, 0 ≤ sdist ⟨0, 0, -1⟩ ⟨0, 0, bbx⟩ u :=
    slice_keeps_plane m4 ⟨0, 0, -1⟩ ⟨0, 0, bbx⟩ hw4
  have c5a := slice_keeps_old m5 ⟨0, 0, 1⟩ ⟨0, 0, -bbx⟩ ⟨0, 0, -1⟩ ⟨0, 0, bbx⟩ hw5 c5
  have c6 := slice_keeps_plane m5 (⟨0, 0, 1⟩ : Vec3 F) ⟨0, 0, -bbx⟩ hw5
  have g1 := c1e v hv
  have g2 := c2d v hv
  have g3 := c3c v hv
  have g4 := c4b v hv
  have g5 := c5a v hv
  have g6 := c6 v hv
  simp only [sdist, dot3, vsub_def] at g1 g2 g3 g4 g5 g6
  refine ⟨by linarith, by linarith, by linarith, by linarith, by linarith,
    by linarith⟩

theorem triMesh_WF : triMesh.WF := by
  intro f hf
  simp only [triMesh, List.mem_singleton] at hf
  subst hf
  exact ⟨by decide!, by decide!, by decide!⟩

/-- Witness for C5 at a concrete triangle mesh and half-extent 1. -/
theorem discard_extraneous_six_cuts_witness :
    triMesh.WF ∧
    ((trimPlanes (1 : ℚ)).length = 6 ∧
      ∀ v ∈ (discard_extraneous triMesh 1).vertices,
        -1 ≤ v.x ∧ v.x ≤ 1 ∧ -1 ≤ v.y ∧ v.y ≤ 1 ∧ -1 ≤ v.z ∧ v.z ≤ 1) :=
  ⟨triMesh_WF, discard_extraneous_six_cuts triMesh 1 triMesh_WF⟩

theorem cmin_add (u v d : Vec3 F) : cmin (u + d) (v + d) = cmin u v + d := by
  apply vec3Ext <;> simp only [cmin, vadd_def] <;> rw [min_add_add_right]

theorem cmax_add (u v d : Vec3 F) : cmax (u + d) (v + d) = cmax u v + d := by
  apply vec3Ext <;> simp only [cmax, vadd_def] <;> rw [max_add_add_right]

theorem vminList_shift (vs : List (Vec3 F)) (v0 d : Vec3 F) :
    vminList (v0 + d) (vs.map (fun v => v + d)) = vminList v0 vs + d := by
  induction vs generalizing v0 with
  | nil => rfl
  | cons w ws ih =>
    simp only [List.map_cons, vminList, List.foldl_cons]
    rw [cmin_add]
    exact ih (cmin v0 w)

theorem vmaxList_shift (vs : List (Vec3 F)) (v0 d : Vec3 F) :
    vmaxList (v0 + d) (vs.map (fun v => v + d)) = vmaxList v0 vs + d := by
  induction vs generalizing v0 with
  | nil => rfl
  | cons w ws ih =>
    simp only [List.map_cons, vmaxList, List.foldl_cons]
    rw [cmax_add]
    exact ih (cmax v0 w)

theorem normalize_mesh_translate_err (m : Mesh F) (d : Vec3 F) (e : Err)
    (h : normalize_mesh m = .error e) :
    normalize_mesh (m.translate d) = .error e := by
  cases hm : m.vertices with
  | nil =>
    have htr : (m.translate d).vertices = [] := by simp [Mesh.translate, hm]
    simp only [normalize_mesh, hm] at h
    simp only [normalize_mesh, htr]
    exact h
  | cons v0 vs => simp [normalize_mesh, hm] at h

theorem normalize_mesh_translate (m : Mesh F) (d : Vec3 F) (m2 : Mesh F)
    (t : Vec3 F) (s : F) (h : normalize_mesh m = .ok (m2, t, s)) :
    normalize_mesh (m.translate d) = .ok (m2, t + d, s) := by
  cases hm : m.vertices with
  | nil => simp [normalize_mesh, hm] at h
  | cons v0 vs =>
    simp only [normalize_mesh, hm] at h
    rw [Except.ok.injEq, Prod.mk.injEq, Prod.mk.injEq] at h
    obtain ⟨hm2, ht, hs⟩ := h
    have htr : (m.translate d).vertices = (v0 + d) :: vs.map (fun v => v + d) := by
      simp [Mesh.translate, hm]
    simp only [normalize_mesh, htr]
    rw [vminList_shift, vmaxList_shift]
    have hsize : vmaxList v0 vs + d - (vminList v0 vs + d) =
        vmaxList v0 vs - vminList v0 vs := by
      apply vec3Ext <;> simp <;> ring
    rw [hsize, Except.ok.injEq, Prod.mk.injEq, Prod.mk.injEq]
    refine ⟨?_, ?_, ?_⟩
    · rw [← hm2]
      apply meshExt
      · dsimp only
        have hcons : ((v0 + d) :: (vs.map (fun v => v + d))) =
            (v0 :: vs).map (fun v => v + d) := by simp
        rw [hcons, List.map_map, List.map_map, List.map_map]
        apply List.map_congr_left
        intro v hv
        apply vec3Ext <;>
          simp only [Function.comp, vsmul_def, vsub_def, vadd_def, vdiv] <;> ring
      · rfl
    · rw [← ht]
      apply vec3Ext <;> simp <;> ring
    · rw [← hs]

theorem translate_winding_comm (fw : List Face → List Face) (m : Mesh F)
    (d : Vec3 F) (b : Bool) :
    (if b then { m.translate d with faces := fw (m.translate d).faces }
      else m.translate d) =
      (if b then { m with faces := fw m.faces } else m).translate d := by
  cases b <;> rfl

theorem removePlaneCore_translate (fw : List Face → List Face)
    (fit : List (Vec3 F) → F → Vec4 F) (sq : F → F) (m : Mesh F) (d : Vec3 F)
    (cfg : Config F) :
    removePlaneCore fw fit sq (m.translate d) cfg =
      match removePlaneCore fw fit sq m cfg with
      | .error e => .error e
      | .ok r => .ok (r.1, r.2.1, r.2.2.1 + d, r.2.2.2) := by
  simp only [removePlaneCore, translate_winding_comm]
  set m1 := (if cfg.fix_winding then { m with faces := fw m.faces } else m) with hm1
  have hlen : (m1.translate d).vertices.length = m1.vertices.length := by
    simp [Mesh.translate]
  cases hok : normalize_mesh m1 with
  | error e => rw [normalize_mesh_translate_err m1 d e hok]
  | ok r =>
    obtain ⟨m2, t, s⟩ := r
    rw [normalize_mesh_translate m1 d m2 t s hok]
    dsimp only
    rw [hlen]
    by_cases hc : (fit m2.vertices cfg.ransac_threshold).c = 0
    · simp [hc]
    · simp [hc]

/-- C7 amended: remove_plane returns only the final mesh and no
normalization provenance: when the result is left in normalized space
(normalize = true), two input meshes differing by any translation — and
therefore with different applied translations — produce identical
return values, so the applied translation/scale cannot be part of the
returned value; the translation and scale are internal, used only to
optionally undo the normalization. -/
theorem remove_plane_translation_invariant (fw : List Face → List Face)
    (fit : List (Vec3 F) → F → Vec4 F) (mfx : Mesh F → Mesh F) (sq : F → F)
    (m : Mesh F) (d : Vec3 F) (cfg : Config F) (hn : cfg.normalize = true) :
    remove_plane fw fit mfx sq (m.translate d) cfg =
      remove_plane fw fit mfx sq m cfg := by
  simp only [remove_plane]
  rw [removePlaneCore_translate]
  cases hok : removePlaneCore fw fit sq m cfg with
  | error e => rfl
  | ok r =>
    obtain ⟨trm, rot, t, s⟩ := r
    dsimp only
    cases hsel : selectLargest cfg.keep_largest trm with
    | error e => rfl
    | ok selected =>
      dsimp only
      simp only [hn, if_true]

/-- Counterexample to C7: a successful run returns the same value for
an input mesh and its translate by (5, 5, 5), although the translations
applied during their normalizations differ — so the returned value
cannot contain the applied translation/scale: remove_plane returns the
final mesh only (clean.py line 145). -/
theorem remove_plane_no_provenance_cex :
    okB (remove_plane fwId fitBelow mfxId sqZero triMesh cfgPlain) = true ∧
    remove_plane fwId fitBelow mfxId sqZero (triMesh.translate ⟨5, 5, 5⟩) cfgPlain =
      remove_plane fwId fitBelow mfxId sqZero triMesh cfgPlain ∧
    normalize_mesh (triMesh.translate ⟨5, 5, 5⟩) ≠ normalize_mesh triMesh :=
  ⟨by decide!, by decide!, by decide!⟩

/-- Witness for the amended C7 at a concrete run. -/
theorem remove_plane_translation_invariant_witness :
    cfgPlain.normalize = true ∧
    remove_plane fwId fitBelow mfxId sqZero (triMesh.translate ⟨5, 5, 5⟩) cfgPlain =
      remove_plane fwId fitBelow mfxId sqZero triMesh cfgPlain :=
  ⟨by decide!,
   remove_plane_translation_invariant fwId fitBelow mfxId sqZero triMesh
     ⟨5, 5, 5⟩ cfgPlain (by decide!)⟩

theorem removePlaneCore_ignores_flags (fw : List Face → List Face)
    (fit : List (Vec3 F) → F → Vec4 F) (sq : F → F) (m : Mesh F)
    (cfg : Config F) (b1 b2 : Bool) :
    removePlaneCore fw fit sq m { cfg with normalize := b1, close_holes := b2 } =
      removePlaneCore fw fit sq m cfg := rfl

/-- Counterexample to C8: the core pipeline option normalize does NOT
default to false — the Python signature of remove_plane (clean.py line
72) declares normalize=True, so by default the result is left in
unit-cube-normalized space and the undo step of lines 133-135 is
skipped.  (The --normalize flag of the separate command-line wrapper is
what defaults to False.) -/
theorem normalize_default_true_cex :
    (defaultConfig : Config ℚ).normalize ≠ false := by decide!

/-- C8 amended: remove_plane's normalize parameter defaults to true
(leave the result in normalized space; the undo of lines 133-135 runs
only when normalize is false), while the command-line wrapper's
--normalize flag defaults to false and is passed through, so the
script's default behavior does undo the normalization.  The last
conjunct states the semantics of the flag: with repair disabled, the
run with normalize = false returns the normalize = true result with
the undo map (multiply by 1/scale, add translation) applied. -/
theorem normalize_option_default_and_undo :
    (defaultConfig : Config F).normalize = true ∧
    cliDefaultArgs.normalize = false ∧
    (cliConfig cliDefaultArgs : Config F).normalize = false ∧
    ∀ (fw : List Face → List Face) (fit : List (Vec3 F) → F → Vec4 F)
      (mfx : Mesh F → Mesh F) (sq : F → F) (m : Mesh F) (cfg : Config F)
      (r trm : Mesh F) (rot : Mat3 F) (t : Vec3 F) (s : F),
      removePlaneCore fw fit sq m cfg = .ok (trm, rot, t, s) →
      remove_plane fw fit mfx sq m { cfg with normalize := true, close_holes := false } = .ok r →
      remove_plane fw fit mfx sq m { cfg with normalize := false, close_holes := false } =
        .ok { r with vertices := (r.vertices.map (fun v => (1 / s) • v)).map (fun v => v + t) } := by
  refine ⟨rfl, rfl, rfl, ?_⟩
  intro fw fit mfx sq m cfg r trm rot t s hcore hrun
  have hcT : removePlaneCore fw fit sq m
      { cfg with normalize := true, close_holes := false } = .ok (trm, rot, t, s) := by
    rw [removePlaneCore_ignores_flags]
    exact hcore
  have hcF : removePlaneCore fw fit sq m
      { cfg with normalize := false, close_holes := false } = .ok (trm, rot, t, s) := by
    rw [removePlaneCore_ignores_flags]
    exact hcore
  simp only [remove_plane] at hrun ⊢
  rw [hcT] at hrun
  rw [hcF]
  dsimp only at hrun ⊢
  cases hsel : selectLargest cfg.keep_largest trm with
  | error e =>
    rw [hsel] at hrun
    exact absurd hrun (by simp)
  | ok selected =>
    rw [hsel] at hrun
    dsimp only at hrun ⊢
    simp only [Bool.false_eq_true, if_false, reduceIte] at hrun ⊢
    rw [Except.ok.injEq] at hrun
    subst hrun
    rfl

/-- Witness for the amended C8 at a concrete run. -/
theorem normalize_option_default_and_undo_witness :
    removePlaneCore fwId fitPlaneZ sqZero flatTriMesh cfgNoKeep =
      .ok (⟨[], []⟩, eye3, ⟨1/2, 1/2, 0⟩, 1) ∧
    remove_plane fwId fitPlaneZ mfxId sqZero flatTriMesh
      { cfgNoKeep with normalize := true, close_holes := false } = .ok ⟨[], []⟩ ∧
    remove_plane fwId fitPlaneZ mfxId sqZero flatTriMesh
      { cfgNoKeep with normalize := false, close_holes := false } =
      .ok { (⟨[], []⟩ : Mesh ℚ) with vertices := (([] : List (Vec3 ℚ)).map (fun v => (1 / (1 : ℚ)) • v)).map (fun v => v + ⟨1/2, 1/2, 0⟩) } :=
  ⟨by decide!, by decide!,
   (normalize_option_default_and_undo (F := ℚ)).2.2.2 fwId fitPlaneZ mfxId
     sqZero flatTriMesh cfgNoKeep ⟨[], []⟩ ⟨[], []⟩ eye3 ⟨1/2, 1/2, 0⟩ 1
     (by decide!) (by decide!)⟩

/-- Counterexample to C9: a call on a mesh that is already centered with
unit maximum extent (and with fix_winding disabled) leaves the caller's
input mesh object exactly as it was — its vertices still hold the
original coordinates after the call, contradicting the claim that this
holds for every call. -/
theorem input_mesh_unchanged_cex :
    removePlaneInputAfter fwId fixedMesh cfgPlain = fixedMesh := by decide!

/-- C9 amended: remove_plane mutates the caller's input mesh object in
place: whenever normalize_mesh succeeds on the (possibly winding-fixed)
input, the input object afterwards holds the normalized coordinates
scale · (v - translation) in place of every original vertex v (and the
winding-fixed faces when fix_winding is set); these coincide with the
original coordinates only when the normalization happens to be the
identity (translation 0 and scale 1). -/
theorem remove_plane_mutates_input (fw : List Face → List Face) (m : Mesh F)
    (cfg : Config F) (m2 : Mesh F) (t : Vec3 F) (s : F)
    (hn : normalize_mesh (if cfg.fix_winding then { m with faces := fw m.faces } else m) = .ok (m2, t, s)) :
    removePlaneInputAfter fw m cfg = m2 ∧
    m2.vertices = (m.vertices.map (fun v => v - t)).map (fun v => s • v) ∧
    m2.faces = (if cfg.fix_winding then fw m.faces else m.faces) := by
  have hm1v : (if cfg.fix_winding then { m with faces := fw m.faces } else m).vertices
      = m.vertices := by
    cases hfw : cfg.fix_winding <;> simp
  refine ⟨?_, ?_, ?_⟩
  · rw [removePlaneInputAfter, hn]
  · cases hv : (if cfg.fix_winding then { m with faces := fw m.faces } else m).vertices with
    | nil => simp [normalize_mesh, hv] at hn
    | cons v0 vs =>
      simp only [normalize_mesh, hv] at hn
      rw [Except.ok.injEq, Prod.mk.injEq, Prod.mk.injEq] at hn
      obtain ⟨hm2, ht, hs⟩ := hn
      rw [← hm2]
      dsimp only
      rw [← hm1v, hv, ht, hs]
  · cases hv : (if cfg.fix_winding then { m with faces := fw m.faces } else m).vertices with
    | nil => simp [normalize_mesh, hv] at hn
    | cons v0 vs =>
      simp only [normalize_mesh, hv] at hn
      rw [Except.ok.injEq, Prod.mk.injEq, Prod.mk.injEq] at hn
      obtain ⟨hm2, ht, hs⟩ := hn
      rw [← hm2]
      cases hfw : cfg.fix_winding <;> simp [hfw]

/-- Witness for the amended C9 at a concrete mesh. -/
theorem remove_plane_mutates_input_witness :
    normalize_mesh (if cfgPlain.fix_winding then { triMesh with faces := fwId triMesh.faces } else triMesh) =
      .ok (⟨[⟨-1/2, 0, -1/2⟩, ⟨1/2, 0, -1/2⟩, ⟨-1/2, 0, 1/2⟩], [(0, 1, 2)]⟩, ⟨1/2, 0, 1/2⟩, (1 : ℚ)) ∧
    (removePlaneInputAfter fwId triMesh cfgPlain =
      ⟨[⟨-1/2, 0, -1/2⟩, ⟨1/2, 0, -1/2⟩, ⟨-1/2, 0, 1/2⟩], [(0, 1, 2)]⟩ ∧
    (⟨[⟨-1/2, 0, -1/2⟩, ⟨1/2, 0, -1/2⟩, ⟨-1/2, 0, 1/2⟩], ([(0, 1, 2)] : List Face)⟩ : Mesh ℚ).vertices =
      (triMesh.vertices.map (fun v => v - ⟨1/2, 0, 1/2⟩)).map (fun v => (1 : ℚ) • v) ∧
    (⟨[⟨-1/2, 0, -1/2⟩, ⟨1/2, 0, -1/2⟩, ⟨-1/2, 0, 1/2⟩], ([(0, 1, 2)] : List Face)⟩ : Mesh ℚ).faces =
      (if cfgPlain.fix_winding then fwId triMesh.faces else triMesh.faces)) :=
  ⟨by decide!,
   remove_plane_mutates_input fwId triMesh cfgPlain
     ⟨[⟨-1/2, 0, -1/2⟩, ⟨1/2, 0, -1/2⟩, ⟨-1/2, 0, 1/2⟩], [(0, 1, 2)]⟩
     ⟨1/2, 0, 1/2⟩ 1 (by decide!)⟩
